import Mathlib

/-!
Verification of the article-analytics pipeline in predict_llm/src/main.rs.

Strings are embedded as Lean strings (lists of characters); the Rust
to_lowercase call is modelled by an ASCII lowercasing map, which agrees
with Rust on the ASCII inputs the pipeline manipulates. Floating point
values (f64) are modelled as real numbers.
-/

/-- ASCII lowercasing of one character, modelling what Rust to_lowercase
does on ASCII input: uppercase letters are shifted down, everything else
is unchanged. -/
def lowerChar (c : Char) : Char :=
  if 65 ≤ c.toNat ∧ c.toNat ≤ 90 then Char.ofNat (c.toNat + 32) else c

/-- Embedding of str::to_lowercase, character by character. -/
def sLower (s : String) : String := String.mk (s.data.map lowerChar)

/-- Decides whether the first list is an initial segment of the second. -/
def isPre : List Char → List Char → Bool
  | [], _ => true
  | _ :: _, [] => false
  | a :: as, b :: bs => a == b && isPre as bs

/-- Decides whether the first list occurs contiguously inside the second. -/
def subOf : List Char → List Char → Bool
  | pat, [] => isPre pat []
  | pat, c :: rest => isPre pat (c :: rest) || subOf pat rest

/-- Embedding of str::contains for a literal pattern. -/
def containsS (s pat : String) : Bool := subOf pat.data s.data

/-- Embedding of compress_status from predict_llm/src/main.rs lines 34 to 43:
lowercase the status, then test for the substring "forum", then for
"resource", defaulting to "blog". -/
def compress_status (status : String) : String :=
  let s := sLower status
  if containsS s "forum" then "forum_question"
  else if containsS s "resource" then "resource"
  else "blog"

/-- Claim C5 counterexample: the status "forum resource" contains the
substring "resource", yet compress_status returns "forum_question", not
"resource", refuting the unordered reading of the claim. -/
theorem compress_status_resource_cex :
    containsS "forum resource" "resource" = true ∧
    compress_status "forum resource" = "forum_question" ∧
    ("forum_question" : String) ≠ "resource" := by
  refine ⟨by decide, by decide, by decide⟩

/-- Claim C5 (amended): compress_status returns "forum_question" when the
lowercased status contains "forum"; "resource" when the lowercased status
contains "resource" but not "forum"; and "blog" when it contains
neither. -/
theorem compress_status_cases (s : String) :
    (containsS (sLower s) "forum" = true → compress_status s = "forum_question") ∧
    (containsS (sLower s) "forum" = false → containsS (sLower s) "resource" = true →
      compress_status s = "resource") ∧
    (containsS (sLower s) "forum" = false → containsS (sLower s) "resource" = false →
      compress_status s = "blog") := by
  unfold compress_status
  refine ⟨fun h1 => ?_, fun h1 h2 => ?_, fun h1 h2 => ?_⟩ <;> simp [h1, *]

/-- Witness for compress_status_cases at concrete inputs. -/
theorem compress_status_cases_witness :
    compress_status "Great forum thread" = "forum_question" ∧
    compress_status "A Resource page" = "resource" ∧
    compress_status "misc" = "blog" :=
  ⟨(compress_status_cases "Great forum thread").1 (by decide),
   (compress_status_cases "A Resource page").2.1 (by decide) (by decide),
   (compress_status_cases "misc").2.2 (by decide) (by decide)⟩

/-- Claim C9: compress_status lowercases its input before substring
matching (its result depends only on the lowercased status, and the
example "Forum question" maps to "forum_question"), and when a status
contains both "forum" and "resource" the forum rule wins. -/
theorem compress_status_case_insensitive :
    (∀ s t : String, sLower s = sLower t → compress_status s = compress_status t) ∧
    compress_status "Forum question" = "forum_question" ∧
    (∀ s : String, containsS (sLower s) "forum" = true →
      containsS (sLower s) "resource" = true → compress_status s = "forum_question") := by
  refine ⟨fun s t h => ?_, by decide, fun s h1 _ => ?_⟩
  · unfold compress_status
    rw [h]
  · unfold compress_status
    simp [h1]

/-- Witness for compress_status_case_insensitive at concrete inputs. -/
theorem compress_status_case_insensitive_witness :
    compress_status "FORUM" = compress_status "fOrUm" ∧
    compress_status "FORUM Resource page" = "forum_question" :=
  ⟨compress_status_case_insensitive.1 "FORUM" "fOrUm" (by decide),
   compress_status_case_insensitive.2.2 "FORUM Resource page" (by decide) (by decide)⟩

/-- One corpus row as consumed by the category-building loop in
predict_llm/src/main.rs lines 62 to 80 (the title is not used there). -/
structure Article where
  status : String
  url : String
  author : String
deriving DecidableEq

/-- Embedding of hash_authors_count.entry(author).or_insert(0) += 1: the
author map with one author bumped. -/
def bump (m : String → Nat) (a : String) : String → Nat :=
  fun x => if x = a then m x + 1 else m x

/-- Embedding of the category expression of main.rs lines 71 to 76, given
the author count read back after the increment: the compressed status and
the lowercased URL joined by a tilde, with the author appended when the
count exceeds 50. -/
def mkCategory (a : Article) (cnt : Nat) : String :=
  let category := compress_status a.status ++ "~" ++ sLower a.url
  if 50 < cnt then category ++ "~" ++ a.author else category

/-- Embedding of the row loop of main.rs lines 62 to 80 restricted to the
category logic: each step first increments the author count, then builds
the category from the updated count. -/
def buildCats : (String → Nat) → List Article → List String
  | _, [] => []
  | m, a :: rest =>
      mkCategory a (bump m a.author a.author) :: buildCats (bump m a.author) rest

/-- Embedding of arr_categories: the loop is run from an empty author
count map (absent entries read as 0 via or_insert(0)). -/
def arr_categories (rows : List Article) : List String := buildCats (fun _ => 0) rows

theorem buildCats_length (m : String → Nat) (rows : List Article) :
    (buildCats m rows).length = rows.length := by
  induction rows generalizing m with
  | nil => rfl
  | cons a rest ih => simp [buildCats, ih]

theorem buildCats_get? (m : String → Nat) (rows : List Article) (i : Nat) (a : Article)
    (ha : rows.get? i = some a) :
    (buildCats m rows).get? i =
      some (mkCategory a
        (m a.author + (rows.take (i + 1)).countP (fun r => r.author == a.author))) := by
  induction rows generalizing m i with
  | nil => simp at ha
  | cons b rest ih =>
      cases i with
      | zero =>
          have hb : b = a := by simpa using ha
          subst hb
          simp [buildCats, List.countP_cons, bump]
      | succ j =>
          have ha2 : rest.get? j = some a := by simpa using ha
          have hrec := ih (bump m b.author) j ha2
          simp only [buildCats, List.get?_cons_succ, List.take_succ_cons,
            List.countP_cons] at hrec ⊢
          rw [hrec, bump]
          congr 2
          by_cases hx : a.author = b.author
          · simp [hx]
            omega
          · have hx2 : ¬ b.author = a.author := fun h => hx h.symm
            simp [hx, hx2]

/-- Scans for the scheme marker "://" and returns the remainder after it,
or none when the marker does not occur. -/
def afterSch : List Char → Option (List Char)
  | [] => none
  | c :: rest =>
      if isPre [':', '/', '/'] (c :: rest) then some (rest.drop 2) else afterSch rest

/-- Following the words of the spec for the claim about categories: the
compress function on URLs "extracts the URL host/path segment,
lowercased"; read as the part after the scheme marker "://" when present
(otherwise the whole URL), lowercased. The code itself never extracts a
segment. -/
def compress_url_spec (url : String) : String :=
  sLower (String.mk ((afterSch url.data).getD url.data))

/-- Claim C6 counterexample: on a URL with a scheme part, the code builds
the category from the entire lowercased URL, not from the lowercased
host/path segment the claim describes. -/
theorem category_full_url_cex :
    arr_categories [⟨"Blog", "HTTP://Site.com/Page", "al"⟩] = ["blog~http://site.com/page"] ∧
    "blog" ++ "~" ++ compress_url_spec "HTTP://Site.com/Page" = "blog~site.com/page" ∧
    arr_categories [⟨"Blog", "HTTP://Site.com/Page", "al"⟩] ≠
      ["blog" ++ "~" ++ compress_url_spec "HTTP://Site.com/Page"] := by
  refine ⟨by decide, by decide, by decide⟩

/-- Claim C6 (amended): the derived category of a row is the compressed
status and the entire lowercased URL joined by a tilde, extended with the
author exactly when the author count including the current row exceeds
50. -/
theorem category_characterization (rows : List Article) (i : Nat) (a : Article)
    (ha : rows.get? i = some a) :
    (arr_categories rows).get? i =
      some (if 50 < (rows.take (i + 1)).countP (fun r => r.author == a.author)
            then compress_status a.status ++ "~" ++ sLower a.url ++ "~" ++ a.author
            else compress_status a.status ++ "~" ++ sLower a.url) := by
  have hchar := buildCats_get? (fun _ => 0) rows i a ha
  simpa [arr_categories, mkCategory] using hchar

/-- Witness for category_characterization on a one-row corpus. -/
theorem category_characterization_witness :
    (arr_categories [⟨"Forum Q", "U2", "xy"⟩]).get? 0 =
      some (if 50 < (([(⟨"Forum Q", "U2", "xy"⟩ : Article)]).take 1).countP
                (fun r => r.author == "xy")
            then compress_status "Forum Q" ++ "~" ++ sLower "U2" ++ "~" ++ "xy"
            else compress_status "Forum Q" ++ "~" ++ sLower "U2") :=
  category_characterization [⟨"Forum Q", "U2", "xy"⟩] 0 ⟨"Forum Q", "U2", "xy"⟩ (by decide)

/-- Claim C10: the author count is incremented before the threshold test,
so row i carries the author suffix exactly when the number of rows up to
and including i with the same author exceeds 50. -/
theorem author_suffix_iff_inclusive_count (rows : List Article) (i : Nat) (a : Article)
    (ha : rows.get? i = some a) :
    ((arr_categories rows).get? i =
        some (compress_status a.status ++ "~" ++ sLower a.url ++ "~" ++ a.author)) ↔
      50 < (rows.take (i + 1)).countP (fun r => r.author == a.author) := by
  have hchar := buildCats_get? (fun _ => 0) rows i a ha
  unfold arr_categories
  rw [hchar]
  simp only [mkCategory, Nat.zero_add, Option.some_inj]
  by_cases h : 50 < (rows.take (i + 1)).countP (fun r => r.author == a.author)
  · simp [h]
  · simp only [if_neg h]
    constructor
    · intro heq
      exfalso
      have hlen := congrArg String.length heq
      have htilde : ("~" : String).length = 1 := rfl
      simp only [String.length_append] at hlen
      omega
    · intro hh
      exact absurd hh h

/-- Witness for author_suffix_iff_inclusive_count: on the 51st article of
one author the suffix is present. -/
theorem author_suffix_iff_inclusive_count_witness :
    (arr_categories (List.replicate 51 (⟨"b", "u", "al"⟩ : Article))).get? 50 =
      some (compress_status "b" ++ "~" ++ sLower "u" ++ "~" ++ "al") :=
  (author_suffix_iff_inclusive_count (List.replicate 51 ⟨"b", "u", "al"⟩) 50
    ⟨"b", "u", "al"⟩ (by decide)).mpr (by decide)

/-- Embedding of param_t1 from main.rs line 49, the detrend boost
coefficient. -/
noncomputable def param_t1 : ℝ := 0.80

/-- Embedding of param_t2 from main.rs line 50, the detrend rank-offset
fraction. -/
noncomputable def param_t2 : ℝ := 0.11

/-- Embedding of the detrend loop of main.rs lines 51 to 56: the k-th
pageview is scaled by one plus param_t1 times the square root of k plus
param_t2 times the corpus length. -/
noncomputable def detrend (arr : List ℝ) : List ℝ :=
  arr.enum.map
    (fun p => p.2 * (1 + param_t1 * Real.sqrt ((p.1 : ℝ) + param_t2 * (arr.length : ℝ))))

theorem detrend_get? (arr : List ℝ) (k : Nat) (pv : ℝ) (h : arr.get? k = some pv) :
    (detrend arr).get? k =
      some (pv * (1 + param_t1 * Real.sqrt ((k : ℝ) + param_t2 * (arr.length : ℝ)))) := by
  unfold detrend
  rw [List.get?_map, List.get?_enum, h]
  rfl

/-- Claim C3: detrending yields one score per record; the k-th score is
the raw pageview times one plus param_t1 times the square root of k plus
param_t2 times the corpus length; the empty corpus yields the empty
sequence. -/
theorem detrend_formula :
    (∀ arr : List ℝ, (detrend arr).length = arr.length) ∧
    (∀ (arr : List ℝ) (k : Nat) (pv : ℝ), arr.get? k = some pv →
      (detrend arr).get? k =
        some (pv * (1 + param_t1 * Real.sqrt ((k : ℝ) + param_t2 * (arr.length : ℝ))))) ∧
    detrend [] = [] := by
  refine ⟨fun arr => by simp [detrend], fun arr k pv h => detrend_get? arr k pv h, by
    simp [detrend]⟩

/-- Witness for detrend_formula on a two-record corpus. -/
theorem detrend_formula_witness :
    (detrend [(2 : ℝ), 3]).length = 2 ∧
    (detrend [(2 : ℝ), 3]).get? 0 =
      some ((2 : ℝ) *
        (1 + param_t1 * Real.sqrt (((0 : Nat) : ℝ) + param_t2 * (([(2 : ℝ), 3]).length : ℝ)))) :=
  ⟨detrend_formula.1 [2, 3], detrend_formula.2.1 [2, 3] 0 2 rfl⟩

/-- Claim C4 counterexample: two records with identical raw pageview 0 at
ranks 0 and 1 get identical detrended scores, so the strict increase the
claim states fails for pageview 0. -/
theorem detrend_zero_pv_cex :
    (detrend [(0 : ℝ), 0]).get? 0 = some 0 ∧
    (detrend [(0 : ℝ), 0]).get? 1 = some 0 ∧
    ¬ ((detrend [(0 : ℝ), 0]).getD 0 0 < (detrend [(0 : ℝ), 0]).getD 1 0) := by
  have h0 := detrend_get? [(0 : ℝ), 0] 0 0 rfl
  have h1 := detrend_get? [(0 : ℝ), 0] 1 0 rfl
  rw [zero_mul] at h0 h1
  refine ⟨h0, h1, ?_⟩
  have g0 : (detrend [(0 : ℝ), 0]).getD 0 0 = ((detrend [(0 : ℝ), 0]).get? 0).getD 0 := rfl
  have g1 : (detrend [(0 : ℝ), 0]).getD 1 0 = ((detrend [(0 : ℝ), 0]).get? 1).getD 0 := rfl
  rw [g0, g1, h0, h1]
  simp

/-- Claim C4 (amended): for two records with identical strictly positive
raw pageviews at ranks k1 < k2, the detrended score at k1 is strictly
below the detrended score at k2. -/
theorem detrend_strict_mono_pos (arr : List ℝ) (k1 k2 : Nat) (pv : ℝ)
    (h12 : k1 < k2) (hk1 : arr.get? k1 = some pv) (hk2 : arr.get? k2 = some pv)
    (hpos : 0 < pv) :
    (detrend arr).getD k1 0 < (detrend arr).getD k2 0 := by
  have e1 : (detrend arr).getD k1 0 =
      pv * (1 + param_t1 * Real.sqrt ((k1 : ℝ) + param_t2 * (arr.length : ℝ))) := by
    have h := detrend_get? arr k1 pv hk1
    show ((detrend arr).get? k1).getD 0 = _
    rw [h]
    rfl
  have e2 : (detrend arr).getD k2 0 =
      pv * (1 + param_t1 * Real.sqrt ((k2 : ℝ) + param_t2 * (arr.length : ℝ))) := by
    have h := detrend_get? arr k2 pv hk2
    show ((detrend arr).get? k2).getD 0 = _
    rw [h]
    rfl
  rw [e1, e2]
  have hL : (0 : ℝ) ≤ param_t2 * (arr.length : ℝ) := by
    unfold param_t2
    positivity
  have hs : Real.sqrt ((k1 : ℝ) + param_t2 * (arr.length : ℝ)) <
      Real.sqrt ((k2 : ℝ) + param_t2 * (arr.length : ℝ)) := by
    apply Real.sqrt_lt_sqrt
    · exact add_nonneg (Nat.cast_nonneg k1) hL
    · have hk : (k1 : ℝ) < (k2 : ℝ) := by exact_mod_cast h12
      linarith
  have ht1 : (0 : ℝ) < param_t1 := by
    unfold param_t1
    norm_num
  have hmid := mul_lt_mul_of_pos_left hs ht1
  exact mul_lt_mul_of_pos_left (by linarith) hpos

/-- Witness for detrend_strict_mono_pos on a two-record corpus of
identical positive pageviews. -/
theorem detrend_strict_mono_pos_witness :
    (detrend [(1 : ℝ), 1]).getD 0 0 < (detrend [(1 : ℝ), 1]).getD 1 0 :=
  detrend_strict_mono_pos [1, 1] 0 1 1 (by norm_num) rfl rfl (by norm_num)

/-- Modelled from the spec: the ingestion collaborator delivers raw
pageview fields where a non-parsable (non-numeric) field defaults to 0.0
instead of aborting the run. The CSV parsing itself happens in the
external polars library, which the spec places out of scope; a field is
embedded as some value when numeric and none when non-parsable. -/
def ingestPv (fields : List (Option ℝ)) : List ℝ := fields.map (fun f => f.getD 0)

/-- Claim C8: a non-numeric pageview field becomes score 0 while the run
continues: the detrended array stays aligned with the corpus (same
length), the bad row detrends to 0, and the category array also stays
aligned with corpus rows. -/
theorem ingest_default_zero_aligned :
    (∀ fields : List (Option ℝ), (detrend (ingestPv fields)).length = fields.length) ∧
    (∀ (fields : List (Option ℝ)) (i : Nat), fields.get? i = some none →
      (detrend (ingestPv fields)).get? i = some 0) ∧
    (∀ rows : List Article, (arr_categories rows).length = rows.length) := by
  refine ⟨fun fields => by simp [detrend, ingestPv], fun fields i h => ?_, fun rows => ?_⟩
  · have hz : (ingestPv fields).get? i = some 0 := by
      unfold ingestPv
      rw [List.get?_map, h]
      rfl
    have hd := detrend_get? (ingestPv fields) i 0 hz
    rw [hd, zero_mul]
  · simpa [arr_categories] using buildCats_length (fun _ => 0) rows

/-- Witness for ingest_default_zero_aligned on a three-field corpus whose
middle field is non-parsable. -/
theorem ingest_default_zero_aligned_witness :
    (detrend (ingestPv [some (5 : ℝ), none, some 3])).length = 3 ∧
    (detrend (ingestPv [some (5 : ℝ), none, some 3])).get? 1 = some 0 ∧
    (arr_categories [⟨"s", "u", "a"⟩]).length = 1 :=
  ⟨ingest_default_zero_aligned.1 [some 5, none, some 3],
   ingest_default_zero_aligned.2.1 [some 5, none, some 3] 1 rfl,
   ingest_default_zero_aligned.2.2 [⟨"s", "u", "a"⟩]⟩

/-- Outcome of running a Rust expression that may panic. -/
inductive RunOutcome (α : Type) where
  | ok : α → RunOutcome α
  | panicked : String → RunOutcome α
deriving DecidableEq

/-- Embedding of Result::expect(msg): an error value is turned into a
panic carrying msg instead of being returned to the caller. -/
def rustExpect {α : Type} (r : Except String α) (msg : String) : RunOutcome α :=
  match r with
  | .ok a => .ok a
  | .error _ => .panicked msg

/-- Modelled from the spec: the error contract of the Clustering Engine
(the KMedoids fit comes from the external linfa_clustering library, whose
source is not part of this repository). Fitting with fewer points than
the requested cluster count reports an explicit configuration error; the
successful assignment payload is abstracted because no claim depends on
it. -/
def kmedoidsFit (k n : Nat) : Except String Unit :=
  if n < k then .error "too few points for requested clusters" else .ok ()

/-- Embedding of n_words from main.rs line 117. -/
def n_words : Nat := 10

/-- Embedding of n_clusters from main.rs line 120. -/
def n_clusters : Nat := 20

/-- Embedding of the clustering call of main.rs lines 121 to 123:
KMedoids::params(n_clusters).fit(dist_matrix).expect(...). -/
def clusteringStage : RunOutcome Unit :=
  rustExpect (kmedoidsFit n_clusters n_words) "KMedoids fitting failed"

/-- Claim C1 counterexample: with the shipped configuration (10 words,
20 clusters) the clustering stage panics through expect instead of
returning the configuration error to the caller. -/
theorem clustering_stage_panics_cex :
    clusteringStage = RunOutcome.panicked "KMedoids fitting failed" := by
  decide

/-- Claim C1 (amended): whenever the point count is below the requested
cluster count, the fit itself reports an explicit configuration error,
but the expect wrapper in main turns that error into a panic, so no
cluster assignment is produced and the caller never sees the error
value. -/
theorem kmedoids_small_input_panics (k n : Nat) (msg : String) (h : n < k) :
    kmedoidsFit k n = Except.error "too few points for requested clusters" ∧
    rustExpect (kmedoidsFit k n) msg = RunOutcome.panicked msg := by
  unfold kmedoidsFit rustExpect
  simp [h]

/-- Witness for kmedoids_small_input_panics at the shipped configuration. -/
theorem kmedoids_small_input_panics_witness :
    kmedoidsFit 20 10 = Except.error "too few points for requested clusters" ∧
    rustExpect (kmedoidsFit 20 10) "KMedoids fitting failed" =
      RunOutcome.panicked "KMedoids fitting failed" :=
  kmedoids_small_input_panics 20 10 "KMedoids fitting failed" (by decide)

/-- Embedding of the dummy distance matrix of main.rs line 118:
Array2::from_elem((n_words, n_words), 1.0), every entry is 1.0. -/
def dist_matrix : Fin n_words → Fin n_words → ℝ := fun _ _ => 1

/-- Claim C2 evaluation at the failing input: the diagonal entry at index
0 of the distance matrix the code actually builds is 1, not the 0 the
claim requires (the bounds half of the claim does hold, since every entry
is 1). -/
theorem dist_matrix_diag_one :
    dist_matrix ⟨0, by decide⟩ ⟨0, by decide⟩ = 1 ∧ (1 : ℝ) ≠ 0 ∧
    (∀ i j : Fin n_words, 0 ≤ dist_matrix i j ∧ dist_matrix i j ≤ 1) :=
  ⟨rfl, one_ne_zero, fun _ _ => ⟨zero_le_one, le_refl 1⟩⟩

/-- Characters kept by the token cleaner: alphanumeric or hyphen. -/
def keepChar (c : Char) : Bool := c.isAlphanum || c == '-'

/-- Cleans a word: strip every character that is not alphanumeric or
hyphen, then lowercase the remainder. -/
def cleanWord (w : List Char) : List Char := (w.filter keepChar).map lowerChar

/-- ASCII whitespace test used to split titles. -/
def isWS (c : Char) : Bool := c == ' ' || c == '\t' || c == '\n' || c == '\r'

/-- Whitespace splitter worker; acc holds the current word reversed. -/
def splitWSAux : List Char → List Char → List (List Char)
  | [], acc => if acc.isEmpty then [] else [acc.reverse]
  | c :: rest, acc =>
      if isWS c then
        (if acc.isEmpty then splitWSAux rest [] else acc.reverse :: splitWSAux rest [])
      else splitWSAux rest (c :: acc)

/-- Splits a character list on whitespace, dropping empty chunks. -/
def splitWS (s : List Char) : List (List Char) := splitWSAux s []

/-- Modelled from the spec: the Token Extractor. The tokenization body is
missing from main.rs (lines 78 to 79 are only a comment), so this follows
the spec: split the title on whitespace, strip every character that is
not alphanumeric or hyphen, lowercase the remainder, and discard any
token whose length is at most 2, keeping the survivors in order with
duplicates preserved. -/
def tokenize (title : String) : List String :=
  (splitWS title.data).filterMap (fun w =>
    let t := cleanWord w
    if t.length ≤ 2 then none else some (String.mk t))

theorem cleanWord_filterMap (l : List (List Char)) :
    l.filterMap (fun w =>
        let t := cleanWord w
        if t.length ≤ 2 then none else some (String.mk t)) =
      (l.map (fun w => String.mk (cleanWord w))).filter (fun t => decide (2 < t.length)) := by
  induction l with
  | nil => rfl
  | cons w rest ih =>
      simp only [List.filterMap_cons, List.map_cons, List.filter_cons]
      by_cases h : (cleanWord w).length ≤ 2
      · simp only [h, if_true, ih]
        have hd : decide (2 < (String.mk (cleanWord w)).length) = false :=
          decide_eq_false (by simpa [String.length] using Nat.not_lt.mpr h)
        rw [hd]
        simp
      · simp only [h, if_false, ih]
        have hd : decide (2 < (String.mk (cleanWord w)).length) = true :=
          decide_eq_true (by simpa [String.length] using Nat.lt_of_not_le h)
        rw [hd]
        simp

theorem splitWSAux_no_ws (w : List Char) (acc : List Char)
    (h : ∀ c ∈ w, isWS c = false) :
    splitWSAux w acc = if (acc.reverse ++ w).isEmpty then [] else [acc.reverse ++ w] := by
  induction w generalizing acc with
  | nil => simp [splitWSAux]
  | cons c rest ih =>
      have hc : isWS c = false := h c (List.mem_cons_self c rest)
      have hrest : ∀ x ∈ rest, isWS x = false := fun x hx => h x (List.mem_cons_of_mem c hx)
      simp only [splitWSAux, hc, Bool.false_eq_true, if_false]
      rw [ih (c :: acc) hrest]
      have hassoc : (c :: acc).reverse ++ rest = acc.reverse ++ (c :: rest) := by
        simp
      rw [hassoc]

/-- Claim C7: tokenize maps each whitespace-separated word of the title
to its cleaned lowercased form and keeps, in order and with duplicates,
exactly those whose length exceeds 2; every emitted token has length
above 2; and a title that is a single already-normalized word longer than
2 characters tokenizes to exactly that word. -/
theorem tokenize_props :
    (∀ title : String, tokenize title =
      ((splitWS title.data).map (fun w => String.mk (cleanWord w))).filter
        (fun t => decide (2 < t.length))) ∧
    (∀ (title : String) (t : String), t ∈ tokenize title → 2 < t.length) ∧
    (∀ w : List Char, 2 < w.length →
      (∀ c ∈ w, keepChar c = true ∧ lowerChar c = c ∧ isWS c = false) →
      tokenize (String.mk w) = [String.mk w]) := by
  have hform : ∀ title : String, tokenize title =
      ((splitWS title.data).map (fun w => String.mk (cleanWord w))).filter
        (fun t => decide (2 < t.length)) := fun title => cleanWord_filterMap _
  refine ⟨hform, fun title t ht => ?_, fun w hlen hcond => ?_⟩
  · rw [hform] at ht
    have := (List.mem_filter.mp ht).2
    exact of_decide_eq_true this
  · have hsplit : splitWS w = [w] := by
      unfold splitWS
      rw [splitWSAux_no_ws w [] (fun c hc => (hcond c hc).2.2)]
      have hne : w.isEmpty = false := by
        cases w with
        | nil => simp at hlen
        | cons c rest => rfl
      simp [hne]
    have hclean : cleanWord w = w := by
      unfold cleanWord
      rw [List.filter_eq_self.mpr (fun c hc => (hcond c hc).1)]
      calc w.map lowerChar = w.map id := by
            apply List.map_congr_left
            intro c hc
            exact (hcond c hc).2.1
        _ = w := List.map_id w
    show (splitWS w).filterMap _ = _
    rw [hsplit]
    simp only [List.filterMap_cons, List.filterMap_nil, hclean]
    rw [if_neg (by omega)]

/-- Witness for tokenize_props on a concrete title and word. -/
theorem tokenize_props_witness :
    (2 < ("hello" : String).length) ∧
    tokenize (String.mk ['d', 'o', 'g', '-', '1']) = [String.mk ['d', 'o', 'g', '-', '1']] :=
  ⟨tokenize_props.2.1 "Hello, Wonderful-World!" "hello" (by decide),
   tokenize_props.2.2 ['d', 'o', 'g', '-', '1'] (by decide) (by decide)⟩
